import Mathlib

/-!
Verification of the VGM player core (src/src/main.c): the bounds-checked
stream cursor, the calibrated sample-rate waiter, the calibration search
step, and the command-interpreter dispatch loop.  All definitions are
shallow embeddings of the C functions of the same name; machine integers
are modelled as `Nat` with explicit reductions `% 65536` (16-bit) and
`% 4294967296` (32-bit) exactly where the C arithmetic can wrap.
-/

namespace VgmPlay

/-! ## Stream cursor (struct vgm_buf, main.c lines 22-26, 108-158)

The buffer holds `uint8_t` cells; a read reduces the stored value
`% 256` to reflect the cell type.  `pos` and `size` are `uint32_t`. -/

structure VgmBuf where
  buffer : List Nat
  size : Nat
  pos : Nat
  deriving Repr, DecidableEq

/-- Embedding of `skip_bytes` (main.c lines 108-115): `pos += n` in
32-bit arithmetic, then clamp to `size`.  The C parameter is a 16-bit
`unsigned`, so callers pass values below 65536. -/
def skip_bytes (v : VgmBuf) (n : Nat) : VgmBuf :=
  let p := (v.pos + n) % 4294967296
  { v with pos := if p > v.size then v.size else p }

/-- Embedding of `get_uint8` (main.c lines 117-124): at or past the end
it returns the sentinel `0x66` and leaves the cursor unchanged. -/
def get_uint8 (v : VgmBuf) : Nat × VgmBuf :=
  if v.pos ≥ v.size then (0x66, v)
  else (v.buffer.getD v.pos 0 % 256, { v with pos := v.pos + 1 })

/-- Embedding of `get_uint16` (main.c lines 126-140): little-endian;
with fewer than 2 bytes left it clamps `pos` to `size` and returns 0. -/
def get_uint16 (v : VgmBuf) : Nat × VgmBuf :=
  if (v.pos + 2) % 4294967296 > v.size then (0, { v with pos := v.size })
  else (v.buffer.getD v.pos 0 % 256 + 256 * (v.buffer.getD (v.pos + 1) 0 % 256),
        { v with pos := (v.pos + 2) % 4294967296 })

/-- Embedding of `get_uint32` (main.c lines 142-158): little-endian;
with fewer than 4 bytes left it clamps `pos` to `size` and returns 0. -/
def get_uint32 (v : VgmBuf) : Nat × VgmBuf :=
  if (v.pos + 4) % 4294967296 > v.size then (0, { v with pos := v.size })
  else (v.buffer.getD v.pos 0 % 256 + 256 * (v.buffer.getD (v.pos + 1) 0 % 256) +
        65536 * (v.buffer.getD (v.pos + 2) 0 % 256) +
        16777216 * (v.buffer.getD (v.pos + 3) 0 % 256),
        { v with pos := (v.pos + 4) % 4294967296 })

/-! ## Delay parameters and the sample-rate waiter (main.c lines 171-225)

The four calibration globals `adj_up`, `adj_dn`, `initial` (all
`uint16_t`) and `step` (`uint8_t`) are gathered in a structure.
`set_delay_parameters` mirrors main.c lines 218-225, including the
8-bit truncation of `step = n / d` and 16-bit arithmetic elsewhere. -/

structure DelayParams where
  adj_up : Nat
  adj_dn : Nat
  initial : Nat
  step : Nat
  deriving Repr, DecidableEq

def set_delay_parameters (n d : Nat) : DelayParams :=
  { adj_up := n % d
    adj_dn := d * 2 % 65536
    step := n / d % 256
    initial := (d * 2 % 65536 + 65536 - n % d) % 65536 }

/-- Conversion of the `uint16_t samples` argument into the `int16_t
remain` local of `wait_44khz` (main.c line 189): 16-bit signed
reinterpretation, so values of 32768 and above become negative. -/
def int16_of_uint16 (s : Nat) : Int :=
  if s % 65536 < 32768 then (s % 65536 : Nat) else (s % 65536 : Nat) - 65536

/-- One iteration of the `wait_44khz` busy loop body (main.c lines
191-205): `err -= 2*adj_up` in 16-bit arithmetic; on wraparound
(`err > old_err`) add back `adj_dn` and consume one extra sample;
always consume `step` samples.  State is `(err, remain)`. -/
def wait_body (p : DelayParams) : Nat × Int → Nat × Int
  | (err, remain) =>
    let e2 := (err + 65536 - 2 * p.adj_up % 65536) % 65536
    if err < e2 then ((e2 + p.adj_dn) % 65536, remain - 1 - p.step)
    else (e2, remain - p.step)

/-- Fuel-indexed run of the `wait_44khz` loop, counting iterations.
`none` means the loop was still running when the fuel ran out. -/
def wait_go (p : DelayParams) : Nat → Nat → Int → Option Nat
  | 0, _, remain => if remain ≤ 0 then some 0 else none
  | fuel + 1, err, remain =>
    if remain ≤ 0 then some 0
    else
      let s := wait_body p (err, remain)
      (wait_go p fuel s.1 s.2).map (· + 1)

/-- Fuel budget: comfortably larger than the worst-case iteration count
of any terminating parameter set (at most `d` iterations per sample). -/
def wait_fuel (samples : Nat) : Nat := 65536 * (samples + 2)

/-- Embedding of `wait_44khz` (main.c lines 185-206), returning the
number of loop iterations executed, or `none` if the loop does not
terminate within `wait_fuel samples` iterations. -/
def wait_44khz (p : DelayParams) (samples : Nat) : Option Nat :=
  wait_go p (wait_fuel samples) p.initial (int16_of_uint16 samples)

/-! ## Calibration search step (main.c lines 227-363)

One iteration of the do-while loop of `calibrate_delay`.  The measured
tick delta of the eight `wait_44khz(1211)` trials is supplied by the
environment, so it is a parameter here.  `TICKS` is the target window
(main.c line 257) and `calib_factors` the residual factor table
(main.c lines 262-270); indexing past its end is undefined behaviour
in the C and is reported as `.undef`. -/

def TICKS : Nat := 4

def calib_factors : List Nat := [2, 3, 3, 3, 5, 5, 5]

structure CalibState where
  n : Nat
  next_factor : Nat
  d : Nat
  lo : Nat
  hi : Nat
  deriving Repr, DecidableEq

inductive CalibOut where
  /-- the `CPU is too slow for delay calibration` diagnostic and `exit(-1)` -/
  | fatal : CalibOut
  /-- the do-while loop runs another iteration from this state -/
  | next : CalibState → CalibOut
  /-- `old_d == d`: the loop exits and playback is attempted -/
  | converged : CalibState → CalibOut
  /-- read past the end of the factor table (undefined behaviour) -/
  | undef : CalibOut
  deriving Repr, DecidableEq

/-- Embedding of one iteration of the `calibrate_delay` search loop
(main.c lines 279-344), with `delta` the measured elapsed ticks. -/
def calibrate_iter (delta : Nat) (s : CalibState) : CalibOut :=
  let old_d := s.d
  if s.lo = 0 then
    if delta < TICKS then
      if s.d = 0x7fff then
        match calib_factors.get? s.next_factor with
        | none => .undef
        | some f =>
          .next { s with n := s.n / f, next_factor := s.next_factor + 1, d := 1 }
      else
        let d1 := s.d * 2 % 65536
        let d2 := if d1 = 0x8000 then 0x7fff else d1
        if old_d = d2 then .converged { s with d := d2 }
        else .next { s with d := d2 }
    else
      let lo' := if s.d = 0x7fff then 0x4000 else s.d / 2
      let hi' := s.d
      let d' := (hi' + lo') % 65536 / 2
      if lo' = 0 then .fatal
      else if old_d = d' then .converged { s with lo := lo', hi := hi', d := d' }
      else .next { s with lo := lo', hi := hi', d := d' }
  else
    let lo' := if delta < TICKS then s.d else s.lo
    let hi' := if delta < TICKS then s.hi else s.d
    let d' := (hi' + lo') % 65536 / 2
    if old_d = d' then .converged { s with lo := lo', hi := hi', d := d' }
    else .next { s with lo := lo', hi := hi', d := d' }

/-! ## Hardware output events and the command interpreter
(main.c lines 365-727)

The observable behaviour of `play_Tandy_sound` is the ordered sequence
of hardware calls it makes: SN76489 data-port writes (`outp(0xc0, d)`
in the `0x50` case), `wait_44khz` calls, `pc_speaker_start` /
`pc_speaker_stop` calls, and `sn76489_off` (the four volume-off
writes `0x9f 0xbf 0xdf 0xff`, recorded as one `silence` event). -/

inductive Event where
  | toneWrite : Nat → Event
  | wait : Nat → Event
  | speakerStart : Nat → Event
  | speakerStop : Event
  | silence : Event
  deriving Repr, DecidableEq

inductive PlayResult where
  | done : PlayResult
  | parseError : PlayResult
  deriving Repr, DecidableEq

/-- Embedding of the `case 0xa0` AY-8910 handler (main.c lines 677-711):
register 0 replaces the low period byte; register 1 replaces the high
4 bits and immediately calls `pc_speaker_start`; register 7 starts the
speaker when bit 0 of the value is set and the period is nonzero;
register 8 stops it when bit 0 is clear; other registers only log.
Returns the new 12-bit period and the emitted events.  The
`% 65536` reductions reflect the 16-bit `unsigned` arithmetic and the
16-bit `freq` parameter of `pc_speaker_start`. -/
def ay8910_write (clock period v1 v2 : Nat) : Nat × List Event :=
  if v1 = 0 then (period % 65536 / 256 * 256 + v2, [])
  else if v1 = 1 then
    let p := period % 256 + v2 % 16 * 256
    (p, [.speakerStart (clock / (16 * p % 65536) % 65536)])
  else if v1 = 7 then
    (period,
     if v2 % 2 = 1 ∧ period ≠ 0 then
       [.speakerStart (clock / (16 * period % 65536) % 65536)]
     else [])
  else if v1 = 8 then
    (period, if v2 % 2 = 0 then [.speakerStop] else [])
  else (period, [])

inductive StepOut where
  /-- the loop exits and runs the cleanup for this result -/
  | term : PlayResult → List Event → StepOut
  /-- the loop continues with a new cursor, period and emitted events -/
  | cont : VgmBuf → Nat → List Event → StepOut
  deriving Repr, DecidableEq

/-- Classification of the `switch (command)` case labels of
`play_Tandy_sound` (main.c lines 405-716): one constructor per group
of `case` labels that share a body. -/
inductive Action where
  /-- reserved / unsupported chip write: log and skip the payload -/
  | skipPayload : Nat → Action
  /-- `0x50`: SN76489 write -/
  | tone : Action
  /-- `0x61`: wait, 16-bit sample count -/
  | waitN : Action
  /-- `0x62` / `0x63`: wait 735 resp. 882 samples -/
  | waitFixed : Nat → Action
  /-- `0x66`: end of sound data -/
  | endData : Action
  /-- `0x67`: data block -/
  | dataBlock : Action
  /-- `0x68`: PCM RAM write -/
  | pcmWrite : Action
  /-- `0x70`-`0x7f`: wait `(command & 0x0f) + 1` samples -/
  | waitShort : Action
  /-- `0x80`-`0x8f`: YM2612 data-pointer write, log only -/
  | ymNop : Action
  /-- `0xa0`: AY8910 write -/
  | ayWrite : Action
  /-- any opcode without a `case` label: `goto parse_error` -/
  | badOp : Action
  deriving Repr, DecidableEq

def classify (command : Nat) : Action :=
  if command = 0x66 then .endData
  else if (0x30 ≤ command ∧ command ≤ 0x3f) ∨ command = 0x4f ∨ command = 0x94 then
    .skipPayload 1
  else if (0x40 ≤ command ∧ command ≤ 0x4e) ∨ (0x51 ≤ command ∧ command ≤ 0x5f) ∨
          (0xa1 ≤ command ∧ command ≤ 0xbf) then .skipPayload 2
  else if (0xc0 ≤ command ∧ command ≤ 0xdf) ∨ command = 0xe1 then .skipPayload 3
  else if command = 0xe0 ∨ (0xe2 ≤ command ∧ command ≤ 0xff) ∨
          command = 0x90 ∨ command = 0x91 ∨ command = 0x95 then .skipPayload 4
  else if command = 0x92 then .skipPayload 5
  else if command = 0x93 then .skipPayload 10
  else if command = 0x50 then .tone
  else if command = 0x61 then .waitN
  else if command = 0x62 then .waitFixed 735
  else if command = 0x63 then .waitFixed 882
  else if command = 0x67 then .dataBlock
  else if command = 0x68 then .pcmWrite
  else if 0x70 ≤ command ∧ command ≤ 0x7f then .waitShort
  else if 0x80 ≤ command ∧ command ≤ 0x8f then .ymNop
  else if command = 0xa0 then .ayWrite
  else .badOp

/-- Embedding of the `switch (command)` body of `play_Tandy_sound`
(main.c lines 405-716), acting on the command byte already read, with
the cleanup performed on exit: `sn76489_off(); pc_speaker_stop();` on
end of stream (lines 719-720) but only `sn76489_off();` on the
`parse_error` path (lines 723-726).  Note the data-block length is
truncated `% 65536` because `skip_bytes` takes a 16-bit `unsigned`. -/
def dispatch (clock command : Nat) (v : VgmBuf) (period : Nat) : StepOut :=
  match classify command with
  | .skipPayload k => .cont (skip_bytes v k) period []
  | .tone => .cont (get_uint8 v).2 period [.toneWrite (get_uint8 v).1]
  | .waitN => .cont (get_uint16 v).2 period [.wait (get_uint16 v).1]
  | .waitFixed m => .cont v period [.wait m]
  | .endData => .term .done [.silence, .speakerStop]
  | .dataBlock =>
    if (get_uint8 v).1 ≠ 0x66 then .term .parseError [.silence]
    else
      .cont (skip_bytes (get_uint32 (skip_bytes (get_uint8 v).2 1)).2
              ((get_uint32 (skip_bytes (get_uint8 v).2 1)).1 % 65536)) period []
  | .pcmWrite =>
    if (get_uint8 v).1 ≠ 0x66 then .term .parseError [.silence]
    else .cont (skip_bytes (get_uint8 v).2 13) period []
  | .waitShort => .cont v period [.wait (command % 16 + 1)]
  | .ymNop => .cont v period []
  | .ayWrite =>
    .cont (get_uint8 (get_uint8 v).2).2
      (ay8910_write clock period (get_uint8 v).1 (get_uint8 (get_uint8 v).2).1).1
      (ay8910_write clock period (get_uint8 v).1 (get_uint8 (get_uint8 v).2).1).2
  | .badOp => .term .parseError [.silence]

/-- One iteration of the `play_Tandy_sound` dispatch loop: read the
command byte (main.c line 403), then dispatch on it. -/
def play_step (clock : Nat) (v : VgmBuf) (period : Nat) : StepOut :=
  dispatch clock (get_uint8 v).1 (get_uint8 v).2 period

/-- Continuation of one loop iteration: a terminal step yields the
result and its cleanup events; a continuing step prepends its events
to the rest of the run. -/
def play_after (go : VgmBuf → Nat → Option (PlayResult × List Event)) :
    StepOut → Option (PlayResult × List Event)
  | .term r evs => some (r, evs)
  | .cont v' period' evs => (go v' period').map fun rt => (rt.1, evs ++ rt.2)

/-- Fuel-indexed run of the dispatch loop; `none` means fuel exhausted. -/
def play_go (clock : Nat) : Nat → VgmBuf → Nat → Option (PlayResult × List Event)
  | 0, _, _ => none
  | fuel + 1, v, period => play_after (play_go clock fuel) (play_step clock v period)

/-- Embedding of `play_Tandy_sound` (main.c lines 395-727): run the
dispatch loop from the start of the command stream with period 0.  The
fuel `size + 1 - pos` is sufficient because every iteration either
terminates or strictly advances the cursor. -/
def play (v : VgmBuf) (clock : Nat) : Option (PlayResult × List Event) :=
  play_go clock (v.size + 1 - v.pos) v 0

/-- Embedding of the command-stream size gate in `main` (main.c lines
936-939): streams with `size >= 0xffff` are rejected with the
`Files larger than 64k are not yet supported.` diagnostic before
`play_Tandy_sound` is ever invoked. -/
def stream_size_accepted (size : Nat) : Bool := decide (size < 0xffff)

/-! ## Derived quantities for the waiter analysis

These are not part of the C program; they are the closed forms through
which the loop of `wait_44khz` is analysed.  With `D = 2*d` (the value
of `adj_dn`), `u = 2*(n % d)` (the per-iteration decrement of `err`),
`st = n / d % 256` (the truncated `step`) and `c = n % d - 1`, the loop
started on `s ≤ 32767` samples runs exactly
`ceil_div (s*D - c) (st*D + u)` iterations. -/

def ceil_div (a b : Nat) : Nat := (a + b - 1) / b

/-- Closed-form iteration count of `wait_44khz` under the parameters
produced by `set_delay_parameters n d`. -/
def wait_iters (n d s : Nat) : Nat :=
  ceil_div (s * (2 * d) - (n % d - 1)) (n / d % 256 * (2 * d) + 2 * (n % d))

/-- Value of the `err` accumulator before iteration `k` of the loop,
reduced modulo `adj_dn = 2*d` (meaningful when `n % d ≥ 1`). -/
def wait_err (n d k : Nat) : Nat :=
  ((2 * d - n % d) + k * (2 * d - 2 * (n % d))) % (2 * d)

/-- Number of `err` wraparounds (extra single-sample decrements) during
the first `k` iterations of the loop (meaningful when `n % d ≥ 1`). -/
def wait_under (n d k : Nat) : Nat :=
  (k * (2 * (n % d)) + (n % d - 1)) / (2 * d)

/-!
# Theorems
-/

/-! ## Stream-cursor lemmas: every operation keeps `pos ≤ size` and
never moves the cursor backwards.  The program only builds cursors with
`size ≤ 0xfffe` (main.c line 936 rejects larger streams), which rules
out 32-bit wrap. -/

theorem skip_bytes_size (v : VgmBuf) (n : Nat) : (skip_bytes v n).size = v.size := rfl

theorem skip_bytes_pos_le (v : VgmBuf) (n : Nat) :
    (skip_bytes v n).pos ≤ v.size := by
  unfold skip_bytes
  dsimp only
  split <;> omega

theorem skip_bytes_pos_mono (v : VgmBuf) (n : Nat) (hp : v.pos ≤ v.size)
    (hs : v.size ≤ 65534) (hn : n ≤ 65535) : v.pos ≤ (skip_bytes v n).pos := by
  unfold skip_bytes
  dsimp only
  have h1 : (v.pos + n) % 4294967296 = v.pos + n := Nat.mod_eq_of_lt (by omega)
  rw [h1]
  split <;> omega

theorem get_uint8_size (v : VgmBuf) : (get_uint8 v).2.size = v.size := by
  unfold get_uint8
  split <;> rfl

theorem get_uint8_pos_le (v : VgmBuf) (hp : v.pos ≤ v.size) :
    (get_uint8 v).2.pos ≤ v.size := by
  unfold get_uint8
  split
  · exact hp
  · dsimp only
    omega

theorem get_uint8_pos_mono (v : VgmBuf) : v.pos ≤ (get_uint8 v).2.pos := by
  unfold get_uint8
  split
  · exact Nat.le_refl _
  · dsimp only
    omega

theorem get_uint16_size (v : VgmBuf) : (get_uint16 v).2.size = v.size := by
  unfold get_uint16
  split <;> rfl

theorem get_uint16_pos_le (v : VgmBuf) (hp : v.pos ≤ v.size) (hs : v.size ≤ 65534) :
    (get_uint16 v).2.pos ≤ v.size := by
  unfold get_uint16
  have h1 : (v.pos + 2) % 4294967296 = v.pos + 2 := Nat.mod_eq_of_lt (by omega)
  rw [h1]
  split <;> dsimp only <;> omega

theorem get_uint16_pos_mono (v : VgmBuf) (hp : v.pos ≤ v.size) (hs : v.size ≤ 65534) :
    v.pos ≤ (get_uint16 v).2.pos := by
  unfold get_uint16
  have h1 : (v.pos + 2) % 4294967296 = v.pos + 2 := Nat.mod_eq_of_lt (by omega)
  rw [h1]
  split <;> dsimp only <;> omega

theorem get_uint32_size (v : VgmBuf) : (get_uint32 v).2.size = v.size := by
  unfold get_uint32
  split <;> rfl

theorem get_uint32_pos_le (v : VgmBuf) (hp : v.pos ≤ v.size) (hs : v.size ≤ 65534) :
    (get_uint32 v).2.pos ≤ v.size := by
  unfold get_uint32
  have h1 : (v.pos + 4) % 4294967296 = v.pos + 4 := Nat.mod_eq_of_lt (by omega)
  rw [h1]
  split <;> dsimp only <;> omega

theorem get_uint32_pos_mono (v : VgmBuf) (hp : v.pos ≤ v.size) (hs : v.size ≤ 65534) :
    v.pos ≤ (get_uint32 v).2.pos := by
  unfold get_uint32
  have h1 : (v.pos + 4) % 4294967296 = v.pos + 4 := Nat.mod_eq_of_lt (by omega)
  rw [h1]
  split <;> dsimp only <;> omega

theorem get_uint8_at_end (v : VgmBuf) (h : v.size ≤ v.pos) : get_uint8 v = (0x66, v) := by
  unfold get_uint8
  rw [if_pos h]

theorem wait_go_of_nonpos (p : DelayParams) (fuel err : Nat) (remain : Int)
    (h : remain ≤ 0) : wait_go p fuel err remain = some 0 := by
  cases fuel with
  | zero => simp [wait_go, h]
  | succ fuel => simp [wait_go, h]

/-- Sample counts of 32768 and above become nonpositive `int16_t`
values, so the wait loop body never runs. -/
theorem wait_44khz_big (p : DelayParams) (N : Nat) (h1 : 32768 ≤ N)
    (h2 : N ≤ 65535) : wait_44khz p N = some 0 := by
  unfold wait_44khz
  apply wait_go_of_nonpos
  unfold int16_of_uint16
  rw [Nat.mod_eq_of_lt (by omega)]
  rw [if_neg (by omega)]
  omega

/-! ## Claim C6 -/

/-- Claim C6: for every stream-cursor state with offset greater than or
equal to the length, `get_uint8` returns the sentinel value 0x66 and
leaves the cursor (in particular the offset) unchanged, so repeated
reads at end-of-stream are idempotent. -/
theorem C6_read_at_end_sentinel (v : VgmBuf) (h : v.size ≤ v.pos) :
    get_uint8 v = (0x66, v) ∧ (get_uint8 v).2.pos = v.pos :=
  ⟨get_uint8_at_end v h, by rw [get_uint8_at_end v h]⟩

theorem C6_read_at_end_sentinel_witness :
    (⟨[7], 1, 1⟩ : VgmBuf).size ≤ (⟨[7], 1, 1⟩ : VgmBuf).pos ∧
      get_uint8 ⟨[7], 1, 1⟩ = (0x66, ⟨[7], 1, 1⟩) :=
  ⟨Nat.le_refl 1, (C6_read_at_end_sentinel ⟨[7], 1, 1⟩ (Nat.le_refl 1)).1⟩

/-! ## Claim C7 -/

/-- Claim C7: every stream-cursor operation (`get_uint8`, `get_uint16`,
`get_uint32`, `skip_bytes`) preserves the invariant `pos ≤ size` and
never decreases the offset: `v.pos ≤ new pos ≤ v.size`.  The bounds
`size ≤ 0xfffe` (guaranteed by the stream-size gate of `main`) and
`n ≤ 0xffff` (the 16-bit `unsigned` parameter of `skip_bytes`) reflect
the states and arguments the program can construct; they rule out
32-bit wraparound of the position arithmetic. -/
theorem C7_cursor_invariant (v : VgmBuf) (n : Nat) (hp : v.pos ≤ v.size)
    (hs : v.size ≤ 65534) (hn : n ≤ 65535) :
    (v.pos ≤ (get_uint8 v).2.pos ∧ (get_uint8 v).2.pos ≤ v.size) ∧
    (v.pos ≤ (get_uint16 v).2.pos ∧ (get_uint16 v).2.pos ≤ v.size) ∧
    (v.pos ≤ (get_uint32 v).2.pos ∧ (get_uint32 v).2.pos ≤ v.size) ∧
    (v.pos ≤ (skip_bytes v n).pos ∧ (skip_bytes v n).pos ≤ v.size) :=
  ⟨⟨get_uint8_pos_mono v, get_uint8_pos_le v hp⟩,
   ⟨get_uint16_pos_mono v hp hs, get_uint16_pos_le v hp hs⟩,
   ⟨get_uint32_pos_mono v hp hs, get_uint32_pos_le v hp hs⟩,
   ⟨skip_bytes_pos_mono v n hp hs hn, skip_bytes_pos_le v n⟩⟩

theorem C7_cursor_invariant_witness :
    (⟨[1, 2, 3, 4, 5], 5, 1⟩ : VgmBuf).pos ≤ (⟨[1, 2, 3, 4, 5], 5, 1⟩ : VgmBuf).size ∧
    (1 ≤ (get_uint32 ⟨[1, 2, 3, 4, 5], 5, 1⟩).2.pos ∧
      (get_uint32 ⟨[1, 2, 3, 4, 5], 5, 1⟩).2.pos ≤ 5) ∧
    (1 ≤ (skip_bytes ⟨[1, 2, 3, 4, 5], 5, 1⟩ 7).pos ∧
      (skip_bytes ⟨[1, 2, 3, 4, 5], 5, 1⟩ 7).pos ≤ 5) :=
  ⟨by decide,
   (C7_cursor_invariant ⟨[1, 2, 3, 4, 5], 5, 1⟩ 7 (by decide) (by decide) (by decide)).2.2.1,
   (C7_cursor_invariant ⟨[1, 2, 3, 4, 5], 5, 1⟩ 7 (by decide) (by decide) (by decide)).2.2.2⟩

/-! ## Claim C8

The claim states that command streams of at most 65535 bytes are
accepted.  The code (main.c line 936) rejects `size >= 0xffff`, so a
stream of exactly 65535 bytes is rejected; the accepted sizes are
exactly those up to 65534 bytes. -/

/-- Claim C8, counterexample: a command stream of exactly 65535 bytes
is not accepted, although the claim says streams of at most 65535
bytes are. -/
theorem C8_counterexample :
    65535 ≤ 65535 ∧ stream_size_accepted 65535 = false := by
  exact ⟨Nat.le_refl _, rfl⟩

/-- Claim C8, amended: a command stream is accepted (playback proceeds
to the core) exactly when its size is at most 65534 bytes; any stream
of 65535 bytes or more is rejected with a diagnostic before the
interpreter is invoked. -/
theorem C8_size_gate (size : Nat) :
    stream_size_accepted size = true ↔ size ≤ 65534 := by
  unfold stream_size_accepted
  rw [decide_eq_true_iff]
  omega

theorem C8_size_gate_witness : stream_size_accepted 65534 = true :=
  (C8_size_gate 65534).mpr (by decide)

/-! ## Claim C5 -/

/-- Claim C5: running the interpreter on the command stream
`[0x50, 0x9F, 0x61, 0x00, 0x02, 0x66]` issues exactly one
tone-generator port write, with value 0x9F, calls the waiter exactly
once, with 512 samples, then silences the chip, terminating in `done`.
The trace is independent of the auxiliary-chip clock. -/
theorem C5_scenario_a :
    (∀ clock, play ⟨[0x50, 0x9f, 0x61, 0x00, 0x02, 0x66], 6, 0⟩ clock =
      some (.done, [.toneWrite 0x9f, .wait 512, .silence, .speakerStop])) ∧
    ([Event.toneWrite 0x9f, .wait 512, .silence, .speakerStop].count (.toneWrite 0x9f) = 1) ∧
    ([Event.toneWrite 0x9f, .wait 512, .silence, .speakerStop].count (.wait 512) = 1) ∧
    (∀ m, Event.wait m ∈ [Event.toneWrite 0x9f, .wait 512, .silence, .speakerStop] → m = 512) := by
  refine ⟨fun clock => rfl, by decide, by decide, ?_⟩
  intro m hm
  simp only [List.mem_cons, List.not_mem_nil, or_false] at hm
  rcases hm with h | h | h | h <;> first | (cases h; rfl) | cases h

theorem C5_scenario_a_witness :
    Event.wait 512 ∈ [Event.toneWrite 0x9f, .wait 512, .silence, .speakerStop] ∧
      (512 : Nat) = 512 :=
  ⟨by decide, C5_scenario_a.2.2.2 512 (by decide)⟩

/-! ## Claim C9 -/

/-- Claim C9: for every sample count in [32768, 65535], `wait_44khz`
performs zero iterations of the delay loop: the 16-bit unsigned count
is reinterpreted as a negative `int16_t` remaining count, so the loop
guard fails immediately and no time is waited. -/
theorem C9_large_wait_is_noop (p : DelayParams) (N : Nat)
    (h1 : 32768 ≤ N) (h2 : N ≤ 65535) : wait_44khz p N = some 0 :=
  wait_44khz_big p N h1 h2

theorem C9_large_wait_is_noop_witness :
    32768 ≤ 40000 ∧ 40000 ≤ 65535 ∧
      wait_44khz (set_delay_parameters 27000 23895) 40000 = some 0 :=
  ⟨by decide, by decide,
   C9_large_wait_is_noop (set_delay_parameters 27000 23895) 40000 (by decide) (by decide)⟩

/-! ## Claim C4

The claim states that exhausting the doubling search (d reaching its
15-bit maximum 0x7fff with the measured ticks still short of the
window) is fatal.  In the code it is not: that situation divides the
numerator by the next entry of the factor table and restarts the
doubling search at d = 1.  The fatal `CPU is too slow` exit fires in
the opposite situation: the very first trial of a search (d = 1, no
lower bound yet) already measures at least `TICKS` ticks. -/

/-- Claim C4, counterexample: with no lower bound yet (`lo = 0`),
trial denominator at its 15-bit maximum and a measured delta below the
window, the calibration loop continues with a reduced numerator and
`d = 1` instead of exiting fatally. -/
theorem C4_counterexample :
    calibrate_iter 0 ⟨27000, 0, 0x7fff, 0, 0⟩ = .next ⟨13500, 1, 1, 0, 0⟩ ∧
    calibrate_iter 0 ⟨27000, 0, 0x7fff, 0, 0⟩ ≠ .fatal := by
  exact ⟨rfl, by decide⟩

/-- Claim C4, amended: the fatal calibration exit (report, then
`exit(-1)` without attempting playback) occurs exactly when the search
has no lower bound yet (`lo = 0`), the measured delta already reaches
the `TICKS` window, and the trial denominator is at most 1 — i.e. the
very first trial is already too slow.  When instead the doubling
search reaches the 15-bit maximum `0x7fff` with the delta still below
the window, the numerator is divided by the next factor-table entry
and the search restarts at `d = 1`. -/
theorem C4_calibration_exit (delta : Nat) (s : CalibState) :
    (calibrate_iter delta s = .fatal ↔ s.lo = 0 ∧ TICKS ≤ delta ∧ s.d ≤ 1) ∧
    (s.lo = 0 → delta < TICKS → s.d = 0x7fff → s.next_factor < 7 →
      ∃ f, calib_factors.get? s.next_factor = some f ∧
        calibrate_iter delta s =
          .next { s with n := s.n / f, next_factor := s.next_factor + 1, d := 1 }) := by
  constructor
  · simp only [calibrate_iter, TICKS]
    split_ifs <;>
      first
      | (constructor <;> intro h <;>
          first | rfl | exact False.elim (by assumption) | omega
                | (exfalso; omega) | cases h)
      | (rcases hf : calib_factors.get? s.next_factor with _ | f <;>
          constructor <;> intro h <;>
          first | rfl | exact False.elim (by assumption) | omega
                | (exfalso; omega) | cases h)
  · intro h1 h2 h3 h4
    have h5 : ∃ f, calib_factors.get? s.next_factor = some f := by
      interval_cases s.next_factor <;> exact ⟨_, rfl⟩
    obtain ⟨f, hf⟩ := h5
    refine ⟨f, hf, ?_⟩
    simp only [calibrate_iter]
    rw [if_pos h1, if_pos h2, if_pos h3, hf]

theorem C4_calibration_exit_witness :
    ((⟨27000, 0, 0x7fff, 0, 0⟩ : CalibState).lo = 0 ∧ (0 : Nat) < TICKS ∧
      (⟨27000, 0, 0x7fff, 0, 0⟩ : CalibState).d = 0x7fff ∧
      (⟨27000, 0, 0x7fff, 0, 0⟩ : CalibState).next_factor < 7) ∧
    ∃ f, calib_factors.get? (⟨27000, 0, 0x7fff, 0, 0⟩ : CalibState).next_factor = some f ∧
      calibrate_iter 0 ⟨27000, 0, 0x7fff, 0, 0⟩ =
        .next { (⟨27000, 0, 0x7fff, 0, 0⟩ : CalibState) with
                n := (⟨27000, 0, 0x7fff, 0, 0⟩ : CalibState).n / f,
                next_factor := (⟨27000, 0, 0x7fff, 0, 0⟩ : CalibState).next_factor + 1,
                d := 1 } :=
  ⟨⟨rfl, by decide, rfl, by decide⟩,
   (C4_calibration_exit 0 ⟨27000, 0, 0x7fff, 0, 0⟩).2 rfl (by decide) rfl (by decide)⟩

/-! ## Claim C1

The claim states that both terminal states run `tone_chip_silence()`
followed by `speaker_stop()`.  In the code (main.c lines 719-726) the
normal end-of-stream exit does exactly that, but the `parse_error`
exit calls only `sn76489_off()` — `pc_speaker_stop()` is not on the
error path. -/

/-- Every terminal output of the dispatch step is either the `done`
cleanup `silence, speakerStop` or the parse-error cleanup `silence`. -/
theorem dispatch_term_shape (clock command : Nat) (v : VgmBuf) (period : Nat)
    (r : PlayResult) (evs : List Event)
    (h : dispatch clock command v period = .term r evs) :
    (r = .done ∧ evs = [.silence, .speakerStop]) ∨
    (r = .parseError ∧ evs = [.silence]) := by
  unfold dispatch at h
  rcases hc : classify command with k | _ | _ | m | _ | _ | _ | _ | _ | _ | _ <;>
    rw [hc] at h <;>
    first
    | (cases h; simp)
    | cases h
    | (split_ifs at h <;> cases h <;> simp)

/-- Every terminal output of one loop iteration is either the `done`
cleanup `silence, speakerStop` or the parse-error cleanup `silence`. -/
theorem play_step_term_shape (clock : Nat) (v : VgmBuf) (period : Nat)
    (r : PlayResult) (evs : List Event)
    (h : play_step clock v period = .term r evs) :
    (r = .done ∧ evs = [.silence, .speakerStop]) ∨
    (r = .parseError ∧ evs = [.silence]) :=
  dispatch_term_shape clock (get_uint8 v).1 (get_uint8 v).2 period r evs h

/-- Claim C1, counterexample: the stream `[0x99]` (an unrecognized
opcode) terminates in `parseError` with trace `[silence]`: the tone
chip is silenced but `speaker_stop` is not called on the error path. -/
theorem C1_counterexample :
    play ⟨[0x99], 1, 0⟩ 0 = some (.parseError, [.silence]) ∧
    ∀ t', ([Event.silence] : List Event) ≠ t' ++ [.silence, .speakerStop] := by
  refine ⟨rfl, ?_⟩
  intro t' h
  have h1 := congrArg List.length h
  simp [List.length_append] at h1

/-- Claim C1, amended: on reaching the terminal `done` state the
interpreter emits `tone_chip_silence` (the four volume-off writes)
followed by `speaker_stop` at the very end of its trace; on reaching
`parseError` it emits `tone_chip_silence` only — `speaker_stop` is not
called on the error path. -/
theorem C1_exit_cleanup (clock fuel : Nat) (v : VgmBuf) (period : Nat)
    (r : PlayResult) (t : List Event)
    (h : play_go clock fuel v period = some (r, t)) :
    (r = .done → ∃ t', t = t' ++ [.silence, .speakerStop]) ∧
    (r = .parseError → ∃ t', t = t' ++ [.silence]) := by
  induction fuel generalizing v period t with
  | zero => simp [play_go] at h
  | succ fuel ih =>
    simp only [play_go] at h
    rcases hstep : play_step clock v period with ⟨r', evs⟩ | ⟨v', period', evs⟩ <;>
      rw [hstep] at h <;> simp only [play_after] at h
    · have h3 : (r', evs) = (r, t) := by injection h
      have hr : r = r' := (congrArg Prod.fst h3).symm
      have ht : t = evs := (congrArg Prod.snd h3).symm
      subst hr
      subst ht
      rcases play_step_term_shape clock v period r t hstep with ⟨h1, h2⟩ | ⟨h1, h2⟩
      · subst h1
        subst h2
        constructor
        · intro _
          exact ⟨[], rfl⟩
        · intro hpe
          cases hpe
      · subst h1
        subst h2
        constructor
        · intro hpe
          cases hpe
        · intro _
          exact ⟨[], rfl⟩
    · obtain ⟨⟨r0, t0⟩, h0, h1⟩ := Option.map_eq_some'.mp h
      have h3 : (r0, evs ++ t0) = (r, t) := h1
      have hr : r = r0 := (congrArg Prod.fst h3).symm
      have ht : t = evs ++ t0 := (congrArg Prod.snd h3).symm
      subst hr
      subst ht
      obtain ⟨ih1, ih2⟩ := ih v' period' t0 h0
      constructor
      · intro hd
        obtain ⟨t'', ht''⟩ := ih1 hd
        exact ⟨evs ++ t'', by rw [ht'', List.append_assoc]⟩
      · intro hpe
        obtain ⟨t'', ht''⟩ := ih2 hpe
        exact ⟨evs ++ t'', by rw [ht'', List.append_assoc]⟩

theorem C1_exit_cleanup_witness :
    (∃ t', ([Event.silence, Event.speakerStop] : List Event) =
      t' ++ [.silence, .speakerStop]) :=
  (C1_exit_cleanup 0 2 ⟨[0x66], 1, 0⟩ 0 .done [.silence, .speakerStop] rfl).1 rfl

/-! ## Claim C2

The claim states that only a register-7 write starts the speaker and
that frequency 0 is never passed to `pc_speaker_start`.  In the code
(main.c lines 682-698) a register-1 write also calls
`pc_speaker_start` immediately, with frequency `clock / (16*period)`,
which is 0 whenever the clock is smaller than 16 times the new
period. -/

/-- Claim C2, counterexample: a stream whose only auxiliary-chip
writes are to registers 0 and 1 (no register-7 write at all) makes the
interpreter call `pc_speaker_start`, and with frequency 0: after
`period` is assembled to 0x0fff, the register-1 write passes
`1000 / (16 * 0xfff) = 0`. -/
theorem C2_counterexample :
    play ⟨[0xa0, 0x00, 0xff, 0xa0, 0x01, 0x0f, 0x66], 7, 0⟩ 1000 =
      some (.done, [.speakerStart 0, .silence, .speakerStop]) ∧
    ¬ (∀ r t, play ⟨[0xa0, 0x00, 0xff, 0xa0, 0x01, 0x0f, 0x66], 7, 0⟩ 1000 =
        some (r, t) → Event.speakerStart 0 ∉ t) := by
  refine ⟨rfl, fun hcl => ?_⟩
  exact hcl .done [.speakerStart 0, .silence, .speakerStop] rfl (by simp)

/-- Claim C2, amended: among the auxiliary-chip write opcodes, a
speaker-start command is issued exactly by register-1 writes (always,
with the newly assembled period, even when the resulting frequency is
0) and by register-7 writes with the tone bit set and a nonzero
period (at frequency `clock / (16 * period)`, truncated to 16 bits);
a speaker-stop command is issued exactly by register-8 writes with the
tone bit clear; a register-0 write only updates the period value and
issues no speaker command. -/
theorem C2_aux_chip_writes (clock period v1 v2 : Nat) :
    ((∃ f, Event.speakerStart f ∈ (ay8910_write clock period v1 v2).2) ↔
      (v1 = 1 ∨ (v1 = 7 ∧ v2 % 2 = 1 ∧ period ≠ 0))) ∧
    (Event.speakerStop ∈ (ay8910_write clock period v1 v2).2 ↔
      (v1 = 8 ∧ v2 % 2 = 0)) ∧
    (v1 = 0 → (ay8910_write clock period v1 v2).2 = [] ∧
      (ay8910_write clock period v1 v2).1 = period % 65536 / 256 * 256 + v2) ∧
    (v1 = 1 → (ay8910_write clock period v1 v2).1 = period % 256 + v2 % 16 * 256 ∧
      (ay8910_write clock period v1 v2).2 =
        [.speakerStart (clock / (16 * (period % 256 + v2 % 16 * 256) % 65536) % 65536)]) ∧
    (v1 = 7 → v2 % 2 = 1 → period ≠ 0 →
      (ay8910_write clock period v1 v2).2 =
        [.speakerStart (clock / (16 * period % 65536) % 65536)]) := by
  unfold ay8910_write
  split_ifs <;> simp_all <;> omega

theorem C2_aux_chip_writes_witness :
    ∃ f, Event.speakerStart f ∈ (ay8910_write 1000 4095 1 15).2 :=
  (C2_aux_chip_writes 1000 4095 1 15).1.mpr (Or.inl rfl)

/-! ## Waiter analysis: the loop of `wait_44khz` computes `wait_iters`

The analysis proceeds in two regimes.  When `adj_up = n % d = 0` the
`err` accumulator never wraps and the loop consumes exactly `step`
samples per iteration.  When `n % d ≥ 1`, `err` walks down a cycle of
length `adj_dn = 2*d`, wrapping (and consuming one extra sample) with
exact Bresenham regularity counted by `wait_under`. -/

theorem ceil_div_le_iff (A B k : Nat) (hB : 1 ≤ B) :
    ceil_div A B ≤ k ↔ A ≤ B * k := by
  unfold ceil_div
  constructor
  · intro h
    have h2 : (A + B - 1) / B < k + 1 := by omega
    rw [Nat.div_lt_iff_lt_mul (by omega)] at h2
    have h3 : A + B - 1 < (k + 1) * B := h2
    have h4 : (k + 1) * B = k * B + B := by ring
    rw [Nat.mul_comm B k]
    omega
  · intro h
    have h2 : A + B - 1 < (k + 1) * B := by
      have h4 : (k + 1) * B = k * B + B := by ring
      rw [Nat.mul_comm B k] at h
      omega
    have h3 : (A + B - 1) / B < k + 1 := (Nat.div_lt_iff_lt_mul (by omega)).mpr h2
    omega

theorem ceil_div_spec (A B : Nat) (hB : 1 ≤ B) : A ≤ B * ceil_div A B :=
  (ceil_div_le_iff A B (ceil_div A B) hB).mp (Nat.le_refl _)

theorem ceil_div_lower (A B k : Nat) (hB : 1 ≤ B) (h : k + 1 ≤ ceil_div A B) :
    B * k < A := by
  by_contra hc
  have h2 : ceil_div A B ≤ k := (ceil_div_le_iff A B k hB).mpr (by omega)
  omega

theorem ceil_div_pos (A B : Nat) (hB : 1 ≤ B) (hA : 1 ≤ A) : 1 ≤ ceil_div A B := by
  by_contra hc
  have h2 : A ≤ B * 0 := (ceil_div_le_iff A B 0 hB).mp (by omega)
  omega

theorem ceil_div_mul (a b k : Nat) (hb : 1 ≤ b) (hk : 1 ≤ k) :
    ceil_div (a * k) (b * k) = ceil_div a b := by
  apply Nat.le_antisymm
  · rw [ceil_div_le_iff _ _ _ (Nat.le_trans hb (Nat.le_mul_of_pos_right b (by omega)))]
    have h1 : a ≤ b * ceil_div a b := ceil_div_spec a b hb
    calc a * k ≤ b * ceil_div a b * k := Nat.mul_le_mul_right k h1
      _ = b * k * ceil_div a b := by ring
  · rw [ceil_div_le_iff _ _ _ hb]
    have h1 : a * k ≤ b * k * ceil_div (a * k) (b * k) :=
      ceil_div_spec (a * k) (b * k) (Nat.le_trans hb (Nat.le_mul_of_pos_right b (by omega)))
    have h2 : a * k ≤ b * ceil_div (a * k) (b * k) * k := by
      calc a * k ≤ b * k * ceil_div (a * k) (b * k) := h1
        _ = b * ceil_div (a * k) (b * k) * k := by ring
    exact Nat.le_of_mul_le_mul_right h2 (by omega)

theorem ceil_div_sub_succ (m st : Nat) (hm : 1 ≤ m) (hst : 1 ≤ st) :
    ceil_div (m - st) st + 1 = ceil_div m st := by
  unfold ceil_div
  by_cases h : m ≤ st
  · have h1 : m - st = 0 := by omega
    rw [h1]
    have h2 : (0 + st - 1) / st = 0 := Nat.div_eq_of_lt (by omega)
    have h3 : (m + st - 1) / st = 1 := by
      apply Nat.div_eq_of_lt_le (by omega)
      have : (1 + 1) * st = st + st := by ring
      omega
    omega
  · have h1 : m - st + st - 1 = m - 1 := by omega
    have h2 : m + st - 1 = m - 1 + st := by omega
    rw [h1, h2, Nat.add_div_right _ (by omega)]

/-! Structure field values of `set_delay_parameters n d` for in-range
arguments. -/

theorem sdp_adj_up (n d : Nat) : (set_delay_parameters n d).adj_up = n % d := rfl

theorem sdp_step (n d : Nat) : (set_delay_parameters n d).step = n / d % 256 := rfl

theorem sdp_adj_dn (n d : Nat) (hd2 : d ≤ 32767) :
    (set_delay_parameters n d).adj_dn = 2 * d := by
  unfold set_delay_parameters
  dsimp only
  rw [Nat.mod_eq_of_lt (by omega)]
  ring

theorem sdp_initial (n d : Nat) (hd1 : 1 ≤ d) (hd2 : d ≤ 32767) :
    (set_delay_parameters n d).initial = 2 * d - n % d := by
  unfold set_delay_parameters
  dsimp only
  have h1 : n % d < d := Nat.mod_lt n (by omega)
  rw [Nat.mod_eq_of_lt (show d * 2 < 65536 by omega)]
  have h2 : d * 2 + 65536 - n % d = 65536 + (2 * d - n % d) := by omega
  rw [h2, Nat.add_mod_left, Nat.mod_eq_of_lt (by omega)]

theorem int16_small (s : Nat) (hs : s ≤ 32767) : int16_of_uint16 s = (s : Int) := by
  unfold int16_of_uint16
  rw [Nat.mod_eq_of_lt (by omega), if_pos (by omega)]

/-! The `adj_up = 0` regime. -/

theorem wait_body_eq_zero (n d err : Nat) (r : Int) (hz : n % d = 0)
    (he : err < 65536) :
    wait_body (set_delay_parameters n d) (err, r) =
      (err, r - (n / d % 256 : Nat)) := by
  unfold wait_body set_delay_parameters
  dsimp only
  rw [hz]
  have h1 : 2 * 0 % 65536 = 0 := by decide
  rw [h1]
  have h2 : (err + 65536 - 0) % 65536 = err := by
    have h3 : err + 65536 - 0 = 65536 + err := by omega
    rw [h3, Nat.add_mod_left, Nat.mod_eq_of_lt he]
  rw [h2, if_neg (by omega)]

theorem wait_go_zero_case (n d : Nat) (hz : n % d = 0) (hst : 1 ≤ n / d % 256) :
    ∀ (fuel err : Nat) (r : Int), err < 65536 → r ≤ (fuel : Int) →
      wait_go (set_delay_parameters n d) fuel err r =
        some (ceil_div r.toNat (n / d % 256)) := by
  intro fuel
  induction fuel with
  | zero =>
    intro err r he hr
    have h0 : r ≤ 0 := by exact_mod_cast hr
    rw [wait_go_of_nonpos _ _ _ _ h0]
    have h1 : r.toNat = 0 := by omega
    rw [h1]
    unfold ceil_div
    rw [Nat.div_eq_of_lt (by omega)]
  | succ fuel ih =>
    intro err r he hr
    by_cases hr0 : r ≤ 0
    · rw [wait_go_of_nonpos _ _ _ _ hr0]
      have h1 : r.toNat = 0 := by omega
      rw [h1]
      unfold ceil_div
      rw [Nat.div_eq_of_lt (by omega)]
    · simp only [wait_go]
      rw [if_neg hr0, wait_body_eq_zero n d err r hz he]
      rw [ih err (r - (n / d % 256 : Nat)) he (by push_cast; push_cast at hr; omega)]
      have h2 : (r - (n / d % 256 : Nat)).toNat = r.toNat - n / d % 256 := by omega
      rw [h2]
      have h3 : ceil_div (r.toNat - n / d % 256) (n / d % 256) + 1 =
          ceil_div r.toNat (n / d % 256) :=
        ceil_div_sub_succ r.toNat (n / d % 256) (by omega) hst
      exact congrArg some h3

/-! The `adj_up ≥ 1` regime. -/

theorem mod_shift (x D u : Nat) (hu1 : 1 ≤ u) (hu : u < D) :
    (x + (D - u)) % D = if x % D < u then x % D + (D - u) else x % D - u := by
  rw [Nat.add_mod, Nat.mod_eq_of_lt (show D - u < D by omega)]
  have hx : x % D < D := Nat.mod_lt x (by omega)
  split
  · exact Nat.mod_eq_of_lt (by omega)
  · have h2 : x % D + (D - u) = D + (x % D - u) := by omega
    rw [h2, Nat.add_mod_left, Nat.mod_eq_of_lt (by omega)]

theorem wait_err_lt (n d k : Nat) (hd1 : 1 ≤ d) : wait_err n d k < 2 * d :=
  Nat.mod_lt _ (by omega)

theorem wait_err_zero (n d : Nat) (hd1 : 1 ≤ d) (hu : 1 ≤ n % d) :
    wait_err n d 0 = 2 * d - n % d := by
  unfold wait_err
  have h1 : n % d < d := Nat.mod_lt n (by omega)
  rw [Nat.zero_mul, Nat.add_zero]
  exact Nat.mod_eq_of_lt (by omega)

theorem wait_err_succ (n d k : Nat) (hd1 : 1 ≤ d) (hu : 1 ≤ n % d) :
    wait_err n d (k + 1) =
      if wait_err n d k < 2 * (n % d) then wait_err n d k + (2 * d - 2 * (n % d))
      else wait_err n d k - 2 * (n % d) := by
  have h1 : n % d < d := Nat.mod_lt n (by omega)
  have h2 : 2 * d - n % d + (k + 1) * (2 * d - 2 * (n % d)) =
      (2 * d - n % d + k * (2 * d - 2 * (n % d))) + (2 * d - 2 * (n % d)) := by
    rw [add_one_mul k (2 * d - 2 * (n % d))]
    omega
  unfold wait_err
  rw [h2]
  exact mod_shift _ (2 * d) (2 * (n % d)) (by omega) (by omega)

theorem wait_under_zero (n d : Nat) (hd1 : 1 ≤ d) : wait_under n d 0 = 0 := by
  unfold wait_under
  have h1 : n % d < d := Nat.mod_lt n (by omega)
  rw [Nat.zero_mul, Nat.zero_add]
  exact Nat.div_eq_of_lt (by omega)

theorem wait_under_mod (n d : Nat) (hd1 : 1 ≤ d) (hu : 1 ≤ n % d) (k : Nat) :
    (k * (2 * (n % d)) + (n % d - 1)) % (2 * d) = 2 * d - 1 - wait_err n d k := by
  have hmd : n % d < d := Nat.mod_lt n (by omega)
  induction k with
  | zero =>
    rw [Nat.zero_mul, Nat.zero_add, wait_err_zero n d hd1 hu]
    rw [Nat.mod_eq_of_lt (by omega)]
    omega
  | succ k ih =>
    have hEk : wait_err n d k < 2 * d := wait_err_lt n d k hd1
    have h2 : (k + 1) * (2 * (n % d)) + (n % d - 1) =
        (k * (2 * (n % d)) + (n % d - 1)) + 2 * (n % d) := by
      rw [add_one_mul k (2 * (n % d))]
      omega
    rw [h2, Nat.add_mod, ih, Nat.mod_eq_of_lt (show 2 * (n % d) < 2 * d by omega)]
    rw [wait_err_succ n d k hd1 hu]
    split
    · -- wraparound: err < u, so the sum reaches past D
      have h3 : 2 * d - 1 - wait_err n d k + 2 * (n % d) =
          2 * d + (2 * (n % d) - 1 - wait_err n d k) := by omega
      rw [h3, Nat.add_mod_left, Nat.mod_eq_of_lt (by omega)]
      omega
    · rw [Nat.mod_eq_of_lt (by omega)]
      omega

theorem wait_under_succ (n d : Nat) (hd1 : 1 ≤ d) (hu : 1 ≤ n % d) (k : Nat) :
    wait_under n d (k + 1) =
      wait_under n d k + (if wait_err n d k < 2 * (n % d) then 1 else 0) := by
  have hmd : n % d < d := Nat.mod_lt n (by omega)
  have hEk : wait_err n d k < 2 * d := wait_err_lt n d k hd1
  unfold wait_under
  have h2 : (k + 1) * (2 * (n % d)) + (n % d - 1) =
      (k * (2 * (n % d)) + (n % d - 1)) + 2 * (n % d) := by
    rw [add_one_mul k (2 * (n % d))]
    omega
  rw [h2]
  have h3 := Nat.div_add_mod (k * (2 * (n % d)) + (n % d - 1)) (2 * d)
  rw [wait_under_mod n d hd1 hu k] at h3
  have h4 : k * (2 * (n % d)) + (n % d - 1) + 2 * (n % d) =
      2 * d * ((k * (2 * (n % d)) + (n % d - 1)) / (2 * d)) +
        (2 * d - 1 - wait_err n d k + 2 * (n % d)) := by omega
  rw [h4, Nat.mul_add_div (by omega)]
  split
  · have h5 : 2 * d - 1 - wait_err n d k + 2 * (n % d) =
        2 * d * 1 + (2 * (n % d) - 1 - wait_err n d k) := by omega
    have h6 : 2 * (n % d) - 1 - wait_err n d k < 2 * d := by omega
    rw [h5, Nat.mul_add_div (by omega), Nat.div_eq_of_lt h6]
  · have h6 : 2 * d - 1 - wait_err n d k + 2 * (n % d) < 2 * d := by omega
    rw [Nat.div_eq_of_lt h6]

theorem wait_body_eq_pos (n d err : Nat) (r : Int) (hd1 : 1 ≤ d) (hd2 : d ≤ 32767)
    (hu : 1 ≤ n % d) (he : err < 2 * d) :
    wait_body (set_delay_parameters n d) (err, r) =
      if err < 2 * (n % d) then
        (err + (2 * d - 2 * (n % d)), r - 1 - (n / d % 256 : Nat))
      else (err - 2 * (n % d), r - (n / d % 256 : Nat)) := by
  have hmd : n % d < d := Nat.mod_lt n (by omega)
  unfold wait_body
  dsimp only
  rw [sdp_adj_up, sdp_step, sdp_adj_dn n d hd2]
  have hm1 : 2 * (n % d) % 65536 = 2 * (n % d) := Nat.mod_eq_of_lt (by omega)
  rw [hm1]
  by_cases hw : err < 2 * (n % d)
  · have h1 : err + 65536 - 2 * (n % d) = 65536 - (2 * (n % d) - err) := by omega
    have h2 : (err + 65536 - 2 * (n % d)) % 65536 = err + 65536 - 2 * (n % d) :=
      Nat.mod_eq_of_lt (by omega)
    rw [h2, if_pos (by omega), if_pos hw]
    have h3 : err + 65536 - 2 * (n % d) + 2 * d =
        65536 + (err + (2 * d - 2 * (n % d))) := by omega
    rw [h3, Nat.add_mod_left, Nat.mod_eq_of_lt (by omega)]
  · have h2 : err + 65536 - 2 * (n % d) = 65536 + (err - 2 * (n % d)) := by omega
    rw [h2, Nat.add_mod_left, Nat.mod_eq_of_lt (by omega)]
    rw [if_neg (by omega), if_neg hw]

/-- State of the wait loop after `k` iterations, in the `adj_up ≥ 1`
regime: the `err` accumulator follows `wait_err` and the remaining
count has decreased by `step` per iteration plus one per wraparound. -/
theorem wait_iterate_eq (n d s0 : Nat) (hd1 : 1 ≤ d) (hd2 : d ≤ 32767)
    (hu : 1 ≤ n % d) (k : Nat) :
    (wait_body (set_delay_parameters n d))^[k] (2 * d - n % d, (s0 : Int)) =
      (wait_err n d k, (s0 : Int) - (k * (n / d % 256) + wait_under n d k : Nat)) := by
  have hmd : n % d < d := Nat.mod_lt n (by omega)
  induction k with
  | zero =>
    rw [Function.iterate_zero_apply, wait_err_zero n d hd1 hu, wait_under_zero n d hd1]
    simp
  | succ k ih =>
    rw [Function.iterate_succ_apply', ih]
    rw [wait_body_eq_pos n d _ _ hd1 hd2 hu (wait_err_lt n d k hd1)]
    rw [wait_err_succ n d k hd1 hu, wait_under_succ n d hd1 hu k]
    split
    · have h1 : ((k + 1) * (n / d % 256) + (wait_under n d k + 1) : Nat) =
          ((k * (n / d % 256) + wait_under n d k : Nat) + 1 + (n / d % 256 : Nat)) := by
        rw [add_one_mul k (n / d % 256)]
        omega
      rw [h1]
      have h2 : (s0 : Int) - (↑(k * (n / d % 256) + wait_under n d k) + 1 + ↑(n / d % 256)) =
          (s0 : Int) - ↑(k * (n / d % 256) + wait_under n d k) - 1 - ↑(n / d % 256) := by ring
      rw [Prod.mk.injEq]
      constructor
      · rfl
      · push_cast
        ring
    · have h1 : ((k + 1) * (n / d % 256) + (wait_under n d k + 0) : Nat) =
          ((k * (n / d % 256) + wait_under n d k : Nat) + (n / d % 256 : Nat)) := by
        rw [add_one_mul k (n / d % 256)]
        omega
      rw [h1]
      rw [Prod.mk.injEq]
      constructor
      · rfl
      · push_cast
        ring

/-- If the remaining count first becomes nonpositive after exactly `K`
iterations, the fuelled runner returns `some K`. -/
theorem wait_go_eq_of_iterate (p : DelayParams) :
    ∀ (K fuel err : Nat) (r : Int),
      (∀ j, j < K → 0 < ((wait_body p)^[j] (err, r)).2) →
      ((wait_body p)^[K] (err, r)).2 ≤ 0 → K ≤ fuel →
      wait_go p fuel err r = some K := by
  intro K
  induction K with
  | zero =>
    intro fuel err r _ hK _
    rw [Function.iterate_zero_apply] at hK
    exact wait_go_of_nonpos p fuel err r hK
  | succ K ih =>
    intro fuel err r hlt hK hfuel
    have h0 : 0 < r := by
      have := hlt 0 (Nat.succ_pos K)
      rw [Function.iterate_zero_apply] at this
      exact this
    cases fuel with
    | zero => omega
    | succ fuel =>
      simp only [wait_go]
      rw [if_neg (by omega)]
      have ihr := ih fuel (wait_body p (err, r)).1 (wait_body p (err, r)).2 ?_ ?_ (by omega)
      · rw [ihr]
        rfl
      · intro j hj
        have h2 := hlt (j + 1) (by omega)
        rw [Function.iterate_succ_apply] at h2
        exact h2
      · have h2 := hK
        rw [Function.iterate_succ_apply] at h2
        exact h2

/-- The remaining count after `j` iterations is nonpositive exactly
when `j` has reached the closed-form iteration count. -/
theorem wait_thresh (n d s j : Nat) (hd1 : 1 ≤ d) (hu : 1 ≤ n % d) :
    ((s : Int) - (j * (n / d % 256) + wait_under n d j : Nat) ≤ 0 ↔
      wait_iters n d s ≤ j) := by
  have hmd : n % d < d := Nat.mod_lt n (by omega)
  have hN : 1 ≤ n / d % 256 * (2 * d) + 2 * (n % d) := by omega
  unfold wait_iters
  rw [ceil_div_le_iff _ _ _ hN]
  have h1 : ((s : Int) - (j * (n / d % 256) + wait_under n d j : Nat) ≤ 0 ↔
      s ≤ j * (n / d % 256) + wait_under n d j) := by omega
  rw [h1]
  have hW : wait_under n d j = (j * (2 * (n % d)) + (n % d - 1)) / (2 * d) := rfl
  have hdm := Nat.div_add_mod (j * (2 * (n % d)) + (n % d - 1)) (2 * d)
  have hNj : (n / d % 256 * (2 * d) + 2 * (n % d)) * j =
      j * (n / d % 256) * (2 * d) + j * (2 * (n % d)) := by ring
  constructor
  · intro h
    have h2 : s * (2 * d) ≤ (j * (n / d % 256) + wait_under n d j) * (2 * d) :=
      Nat.mul_le_mul_right _ h
    have h3 : (j * (n / d % 256) + wait_under n d j) * (2 * d) =
        j * (n / d % 256) * (2 * d) +
          2 * d * ((j * (2 * (n % d)) + (n % d - 1)) / (2 * d)) := by
      rw [hW]
      ring
    omega
  · intro h
    have h2 : (s - j * (n / d % 256)) * (2 * d) =
        s * (2 * d) - j * (n / d % 256) * (2 * d) := Nat.sub_mul _ _ _
    by_cases hj : s ≤ j * (n / d % 256)
    · omega
    · have h4 : (s - j * (n / d % 256)) * (2 * d) ≤
          j * (2 * (n % d)) + (n % d - 1) := by omega
      have h5 : s - j * (n / d % 256) ≤ wait_under n d j := by
        rw [hW, Nat.le_div_iff_mul_le (show 0 < 2 * d by omega)]
        exact h4
      omega

theorem wait_44khz_eq_of_pos (n d s : Nat) (hd1 : 1 ≤ d) (hd2 : d ≤ 32767)
    (hs : s ≤ 32767) (hu : 1 ≤ n % d) :
    wait_44khz (set_delay_parameters n d) s = some (wait_iters n d s) := by
  have hmd : n % d < d := Nat.mod_lt n (by omega)
  unfold wait_44khz
  rw [sdp_initial n d hd1 hd2, int16_small s hs]
  apply wait_go_eq_of_iterate
  · intro j hj
    rw [wait_iterate_eq n d s hd1 hd2 hu j]
    dsimp only
    by_contra hc
    have h2 := (wait_thresh n d s j hd1 hu).mp (by omega)
    omega
  · rw [wait_iterate_eq n d s hd1 hd2 hu (wait_iters n d s)]
    dsimp only
    exact (wait_thresh n d s (wait_iters n d s) hd1 hu).mpr (Nat.le_refl _)
  · unfold wait_fuel wait_iters
    rw [ceil_div_le_iff _ _ _ (by omega)]
    have h1 : s * (2 * d) ≤ s * 65534 := Nat.mul_le_mul_left s (by omega)
    have h2 : 2 * (n % d) * (65536 * (s + 2)) ≤
        (n / d % 256 * (2 * d) + 2 * (n % d)) * (65536 * (s + 2)) :=
      Nat.mul_le_mul_right _ (by omega)
    have h3 : 2 * (65536 * (s + 2)) ≤ 2 * (n % d) * (65536 * (s + 2)) :=
      Nat.mul_le_mul_right _ (by omega)
    omega

/-- Full characterization: for in-range parameters that do not fall
into the nonterminating `step = 0, adj_up = 0` corner, the wait loop
runs exactly `wait_iters n d s` iterations on `s ≤ 32767` samples. -/
theorem wait_44khz_eq_iters (n d s : Nat) (hd1 : 1 ≤ d) (hd2 : d ≤ 32767)
    (hs : s ≤ 32767) (hterm : ¬(n % d = 0 ∧ n / d % 256 = 0)) :
    wait_44khz (set_delay_parameters n d) s = some (wait_iters n d s) := by
  by_cases hz : n % d = 0
  · have hst : 1 ≤ n / d % 256 := by
      rcases Nat.eq_zero_or_pos (n / d % 256) with h | h
      · exact absurd ⟨hz, h⟩ hterm
      · exact h
    unfold wait_44khz
    rw [sdp_initial n d hd1 hd2, int16_small s hs]
    rw [wait_go_zero_case n d hz hst (wait_fuel s) (2 * d - n % d) (s : Int)
      (by omega) (by unfold wait_fuel; push_cast; omega)]
    have h1 : ((s : Int)).toNat = s := by omega
    rw [h1]
    unfold wait_iters
    rw [hz]
    have e1 : s * (2 * d) - (0 - 1) = s * (2 * d) := by omega
    have e2 : n / d % 256 * (2 * d) + 2 * 0 = n / d % 256 * (2 * d) := by omega
    rw [e1, e2]
    exact congrArg some (ceil_div_mul s (n / d % 256) (2 * d) hst (by omega)).symm
  · exact wait_44khz_eq_of_pos n d s hd1 hd2 hs (by omega)

/-! ## Claim C3

The claim quantifies over every pair of sample counts.  It fails as
stated: sample counts are 16-bit and the loop reinterprets them as
signed, so when `a + b ≥ 32768` the combined call waits no time at
all while the two separate calls wait in full.  On the domain
`a + b ≤ 32767` (and for parameter sets whose loop terminates at all),
the split does consume within one loop iteration of the combined
call. -/

theorem ceil_add_within_one (D N c a b : Nat) (hD : 1 ≤ D) (hN : 1 ≤ N)
    (hcD : c < D) (hcN : c < N) :
    ceil_div (a * D - c) N + ceil_div (b * D - c) N ≤
      ceil_div ((a + b) * D - c) N + 1 ∧
    ceil_div ((a + b) * D - c) N ≤
      ceil_div (a * D - c) N + ceil_div (b * D - c) N + 1 := by
  have hmono : ∀ x y : Nat, x ≤ y → ceil_div (x * D - c) N ≤ ceil_div (y * D - c) N := by
    intro x y hxy
    rw [ceil_div_le_iff _ _ _ hN]
    have h1 : x * D ≤ y * D := Nat.mul_le_mul_right D hxy
    have h2 : y * D - c ≤ N * ceil_div (y * D - c) N := ceil_div_spec _ _ hN
    omega
  rcases Nat.eq_zero_or_pos a with ha | ha
  · subst ha
    have h0 : ceil_div (0 * D - c) N = 0 := by
      have : 0 * D - c = 0 := by omega
      rw [this]
      unfold ceil_div
      exact Nat.div_eq_of_lt (by omega)
    rw [Nat.zero_add, h0, Nat.zero_add]
    omega
  rcases Nat.eq_zero_or_pos b with hb | hb
  · subst hb
    have h0 : ceil_div (0 * D - c) N = 0 := by
      have : 0 * D - c = 0 := by omega
      rw [this]
      unfold ceil_div
      exact Nat.div_eq_of_lt (by omega)
    have hEq : a + 0 = a := Nat.add_zero a
    rw [hEq, h0]
    omega
  have hKa : 1 ≤ ceil_div (a * D - c) N := by
    apply ceil_div_pos _ _ hN
    have : D ≤ a * D := Nat.le_mul_of_pos_left D ha
    omega
  have hKb : 1 ≤ ceil_div (b * D - c) N := by
    apply ceil_div_pos _ _ hN
    have : D ≤ b * D := Nat.le_mul_of_pos_left D hb
    omega
  have f1 : a * D - c ≤ N * ceil_div (a * D - c) N := ceil_div_spec _ _ hN
  have f2 : b * D - c ≤ N * ceil_div (b * D - c) N := ceil_div_spec _ _ hN
  have f4 : N * (ceil_div (a * D - c) N - 1) < a * D - c :=
    ceil_div_lower _ _ _ hN (by omega)
  have f5 : N * (ceil_div (b * D - c) N - 1) < b * D - c :=
    ceil_div_lower _ _ _ hN (by omega)
  have hab : (a + b) * D = a * D + b * D := by ring
  have haD : D ≤ a * D := Nat.le_mul_of_pos_left D ha
  have hbD : D ≤ b * D := Nat.le_mul_of_pos_left D hb
  constructor
  · -- split run is at most one iteration longer
    have key : N * (ceil_div (a * D - c) N - 1 + (ceil_div (b * D - c) N - 1)) <
        (a + b) * D - c := by
      rw [Nat.mul_add]
      omega
    have h6 : ceil_div (a * D - c) N - 1 + (ceil_div (b * D - c) N - 1) + 1 ≤
        ceil_div ((a + b) * D - c) N := by
      by_contra hc2
      have h7 : ceil_div ((a + b) * D - c) N ≤
          ceil_div (a * D - c) N - 1 + (ceil_div (b * D - c) N - 1) := by omega
      have h8 : (a + b) * D - c ≤
          N * (ceil_div (a * D - c) N - 1 + (ceil_div (b * D - c) N - 1)) := by
        have h9 := ceil_div_spec ((a + b) * D - c) N hN
        have h10 := Nat.mul_le_mul_left N h7
        omega
      omega
    omega
  · -- combined run is at most one iteration longer
    rw [ceil_div_le_iff _ _ _ hN]
    have h6 : N * (ceil_div (a * D - c) N + ceil_div (b * D - c) N + 1) =
        N * ceil_div (a * D - c) N + N * ceil_div (b * D - c) N + N := by ring
    omega

/-- Claim C3, counterexample: with override parameters `n = 32767`,
`d = 1`, waiting 32767 samples takes 129 iterations and waiting one
more sample takes 1, but a single combined wait of 32768 samples runs
zero iterations (the count is reinterpreted as a negative `int16_t`),
differing by far more than one iteration. -/
theorem C3_counterexample :
    wait_44khz (set_delay_parameters 32767 1) 32767 = some 129 ∧
    wait_44khz (set_delay_parameters 32767 1) 1 = some 1 ∧
    wait_44khz (set_delay_parameters 32767 1) (32767 + 1) = some 0 ∧
    ¬(129 + 1 ≤ 0 + 1) := by
  refine ⟨?_, ?_, wait_44khz_big _ _ (by omega) (by omega), by omega⟩
  · rw [wait_44khz_eq_iters 32767 1 32767 (by decide) (by decide) (by decide) (by decide)]
    decide
  · rw [wait_44khz_eq_iters 32767 1 1 (by decide) (by decide) (by decide) (by decide)]
    decide

/-- Claim C3, amended: for parameters from `set_delay_parameters n d`
with `n, d` in `[1, 32767]` whose loop terminates (`step` and `adj_up`
not both zero) and for sample counts with `a + b ≤ 32767`, calling
`wait_44khz a` then `wait_44khz b` runs the same total number of delay
loop iterations as the single call `wait_44khz (a + b)`, within one
iteration. -/
theorem C3_wait_additive (n d a b : Nat) (hd1 : 1 ≤ d) (hd2 : d ≤ 32767)
    (hab : a + b ≤ 32767) (hterm : ¬(n % d = 0 ∧ n / d % 256 = 0)) :
    ∃ ia ib iab,
      wait_44khz (set_delay_parameters n d) a = some ia ∧
      wait_44khz (set_delay_parameters n d) b = some ib ∧
      wait_44khz (set_delay_parameters n d) (a + b) = some iab ∧
      ia + ib ≤ iab + 1 ∧ iab ≤ ia + ib + 1 := by
  have hmd : n % d < d := Nat.mod_lt n (by omega)
  have hN : 1 ≤ n / d % 256 * (2 * d) + 2 * (n % d) := by
    by_cases hz : n % d = 0
    · have hst : 1 ≤ n / d % 256 := by
        rcases Nat.eq_zero_or_pos (n / d % 256) with h | h
        · exact absurd ⟨hz, h⟩ hterm
        · exact h
      have : 1 * (2 * d) ≤ n / d % 256 * (2 * d) := Nat.mul_le_mul_right _ hst
      omega
    · omega
  have hcN : n % d - 1 < n / d % 256 * (2 * d) + 2 * (n % d) := by
    by_cases hz : n % d = 0
    · omega
    · omega
  have hadd := ceil_add_within_one (2 * d) (n / d % 256 * (2 * d) + 2 * (n % d))
    (n % d - 1) a b (by omega) hN (by omega) hcN
  refine ⟨wait_iters n d a, wait_iters n d b, wait_iters n d (a + b),
    wait_44khz_eq_iters n d a hd1 hd2 (by omega) hterm,
    wait_44khz_eq_iters n d b hd1 hd2 (by omega) hterm,
    wait_44khz_eq_iters n d (a + b) hd1 hd2 (by omega) hterm,
    hadd.1, hadd.2⟩

theorem C3_wait_additive_witness :
    (1 ≤ 23895 ∧ 23895 ≤ 32767 ∧ 100 + 200 ≤ 32767 ∧
      ¬(27000 % 23895 = 0 ∧ 27000 / 23895 % 256 = 0)) ∧
    ∃ ia ib iab,
      wait_44khz (set_delay_parameters 27000 23895) 100 = some ia ∧
      wait_44khz (set_delay_parameters 27000 23895) 200 = some ib ∧
      wait_44khz (set_delay_parameters 27000 23895) (100 + 200) = some iab ∧
      ia + ib ≤ iab + 1 ∧ iab ≤ ia + ib + 1 :=
  ⟨by decide,
   C3_wait_additive 27000 23895 100 200 (by decide) (by decide) (by decide) (by decide)⟩

/-! ## Claim C10

Interpreter termination holds: every loop iteration either terminates
or strictly advances the cursor, so fuel `size + 1 - pos` suffices.
The waiter claim fails as stated: for example `n = 256, d = 1` gives
`adj_up = 256 % 1 = 0` and `step = (256 / 1) % 256 = 0` (the 8-bit
truncation of `step`), so the loop makes no progress and never
terminates. -/

theorem classify_of_ge (command : Nat) (hc : 256 ≤ command) :
    classify command = .badOp := by
  unfold classify
  rw [if_neg (show ¬command = 0x66 by omega),
    if_neg (show ¬((0x30 ≤ command ∧ command ≤ 0x3f) ∨ command = 0x4f ∨
      command = 0x94) by omega),
    if_neg (show ¬((0x40 ≤ command ∧ command ≤ 0x4e) ∨
      (0x51 ≤ command ∧ command ≤ 0x5f) ∨
      (0xa1 ≤ command ∧ command ≤ 0xbf)) by omega),
    if_neg (show ¬((0xc0 ≤ command ∧ command ≤ 0xdf) ∨ command = 0xe1) by omega),
    if_neg (show ¬(command = 0xe0 ∨ (0xe2 ≤ command ∧ command ≤ 0xff) ∨
      command = 0x90 ∨ command = 0x91 ∨ command = 0x95) by omega),
    if_neg (show ¬command = 0x92 by omega),
    if_neg (show ¬command = 0x93 by omega),
    if_neg (show ¬command = 0x50 by omega),
    if_neg (show ¬command = 0x61 by omega),
    if_neg (show ¬command = 0x62 by omega),
    if_neg (show ¬command = 0x63 by omega),
    if_neg (show ¬command = 0x67 by omega),
    if_neg (show ¬command = 0x68 by omega),
    if_neg (show ¬(0x70 ≤ command ∧ command ≤ 0x7f) by omega),
    if_neg (show ¬(0x80 ≤ command ∧ command ≤ 0x8f) by omega),
    if_neg (show ¬command = 0xa0 by omega)]

set_option maxHeartbeats 4000000 in
theorem classify_skipPayload_le (command k : Nat)
    (h : classify command = .skipPayload k) : k ≤ 65535 := by
  by_cases hc : command < 256
  · interval_cases command <;> cases h <;> omega
  · rw [classify_of_ge command (by omega)] at h
    cases h

theorem dispatch_cont_advance (clock command : Nat) (v : VgmBuf) (period : Nat)
    (v' : VgmBuf) (period' : Nat) (evs : List Event)
    (hp : v.pos ≤ v.size) (hs : v.size ≤ 65534)
    (h : dispatch clock command v period = .cont v' period' evs) :
    v.pos ≤ v'.pos ∧ v'.pos ≤ v.size ∧ v'.size = v.size := by
  unfold dispatch at h
  rcases hc : classify command with k | _ | _ | m | _ | _ | _ | _ | _ | _ | _ <;>
    rw [hc] at h
  · have hk : k ≤ 65535 := classify_skipPayload_le command k hc
    cases h
    exact ⟨skip_bytes_pos_mono v k hp hs hk, skip_bytes_pos_le v k, rfl⟩
  · cases h
    exact ⟨get_uint8_pos_mono v, get_uint8_pos_le v hp, get_uint8_size v⟩
  · cases h
    exact ⟨get_uint16_pos_mono v hp hs, get_uint16_pos_le v hp hs, get_uint16_size v⟩
  · cases h
    exact ⟨Nat.le_refl _, hp, rfl⟩
  · cases h
  · -- data block: marker check, then skip 1, read length, skip length % 65536
    split_ifs at h
    cases h
    have s1p : v.pos ≤ (get_uint8 v).2.pos := get_uint8_pos_mono v
    have s1l : (get_uint8 v).2.pos ≤ v.size := get_uint8_pos_le v hp
    have s1s : (get_uint8 v).2.size = v.size := get_uint8_size v
    have s2p : (get_uint8 v).2.pos ≤ (skip_bytes (get_uint8 v).2 1).pos :=
      skip_bytes_pos_mono _ 1 (by omega) (by omega) (by omega)
    have s2l : (skip_bytes (get_uint8 v).2 1).pos ≤ (get_uint8 v).2.size :=
      skip_bytes_pos_le _ 1
    have s2s : (skip_bytes (get_uint8 v).2 1).size = (get_uint8 v).2.size :=
      skip_bytes_size _ 1
    have s3p : (skip_bytes (get_uint8 v).2 1).pos ≤
        (get_uint32 (skip_bytes (get_uint8 v).2 1)).2.pos :=
      get_uint32_pos_mono _ (by omega) (by omega)
    have s3l : (get_uint32 (skip_bytes (get_uint8 v).2 1)).2.pos ≤
        (skip_bytes (get_uint8 v).2 1).size :=
      get_uint32_pos_le _ (by omega) (by omega)
    have s3s : (get_uint32 (skip_bytes (get_uint8 v).2 1)).2.size =
        (skip_bytes (get_uint8 v).2 1).size :=
      get_uint32_size _
    have s4p : (get_uint32 (skip_bytes (get_uint8 v).2 1)).2.pos ≤
        (skip_bytes (get_uint32 (skip_bytes (get_uint8 v).2 1)).2
          ((get_uint32 (skip_bytes (get_uint8 v).2 1)).1 % 65536)).pos :=
      skip_bytes_pos_mono _ _ (by omega) (by omega)
        (Nat.le_of_lt_succ (Nat.mod_lt _ (by omega)))
    have s4l : (skip_bytes (get_uint32 (skip_bytes (get_uint8 v).2 1)).2
        ((get_uint32 (skip_bytes (get_uint8 v).2 1)).1 % 65536)).pos ≤
        (get_uint32 (skip_bytes (get_uint8 v).2 1)).2.size :=
      skip_bytes_pos_le _ _
    have s4s : (skip_bytes (get_uint32 (skip_bytes (get_uint8 v).2 1)).2
        ((get_uint32 (skip_bytes (get_uint8 v).2 1)).1 % 65536)).size =
        (get_uint32 (skip_bytes (get_uint8 v).2 1)).2.size :=
      skip_bytes_size _ _
    refine ⟨by omega, by omega, by omega⟩
  · -- PCM RAM write: marker check, then skip 13
    split_ifs at h
    cases h
    have s1p : v.pos ≤ (get_uint8 v).2.pos := get_uint8_pos_mono v
    have s1l : (get_uint8 v).2.pos ≤ v.size := get_uint8_pos_le v hp
    have s1s : (get_uint8 v).2.size = v.size := get_uint8_size v
    have s2p : (get_uint8 v).2.pos ≤ (skip_bytes (get_uint8 v).2 13).pos :=
      skip_bytes_pos_mono _ 13 (by omega) (by omega) (by omega)
    have s2l : (skip_bytes (get_uint8 v).2 13).pos ≤ (get_uint8 v).2.size :=
      skip_bytes_pos_le _ 13
    have s2s : (skip_bytes (get_uint8 v).2 13).size = (get_uint8 v).2.size :=
      skip_bytes_size _ 13
    refine ⟨by omega, by omega, by omega⟩
  · cases h
    exact ⟨Nat.le_refl _, hp, rfl⟩
  · cases h
    exact ⟨Nat.le_refl _, hp, rfl⟩
  · -- AY8910 write: two byte reads
    cases h
    have s1p : v.pos ≤ (get_uint8 v).2.pos := get_uint8_pos_mono v
    have s1l : (get_uint8 v).2.pos ≤ v.size := get_uint8_pos_le v hp
    have s1s : (get_uint8 v).2.size = v.size := get_uint8_size v
    have s2p : (get_uint8 v).2.pos ≤ (get_uint8 (get_uint8 v).2).2.pos :=
      get_uint8_pos_mono _
    have s2l : (get_uint8 (get_uint8 v).2).2.pos ≤ (get_uint8 v).2.size :=
      get_uint8_pos_le _ (by omega)
    have s2s : (get_uint8 (get_uint8 v).2).2.size = (get_uint8 v).2.size :=
      get_uint8_size _
    refine ⟨by omega, by omega, by omega⟩
  · cases h

theorem play_step_cont_pos (clock : Nat) (v : VgmBuf) (period : Nat)
    (v' : VgmBuf) (period' : Nat) (evs : List Event)
    (hp : v.pos ≤ v.size) (hs : v.size ≤ 65534)
    (h : play_step clock v period = .cont v' period' evs) :
    v.pos < v'.pos ∧ v'.pos ≤ v.size ∧ v'.size = v.size := by
  by_cases hend : v.size ≤ v.pos
  · rw [play_step, get_uint8_at_end v hend] at h
    cases h
  · have hv1 : get_uint8 v =
        (v.buffer.getD v.pos 0 % 256, ⟨v.buffer, v.size, v.pos + 1⟩) := by
      unfold get_uint8
      rw [if_neg (by omega)]
    rw [play_step, hv1] at h
    have h2 := dispatch_cont_advance clock (v.buffer.getD v.pos 0 % 256)
      ⟨v.buffer, v.size, v.pos + 1⟩ period v' period' evs (by dsimp only; omega)
      (by dsimp only; omega) h
    dsimp only at h2
    exact ⟨by omega, h2.2.1, h2.2.2⟩

theorem play_go_isSome (clock : Nat) : ∀ (fuel : Nat) (v : VgmBuf) (period : Nat),
    v.pos ≤ v.size → v.size ≤ 65534 → v.size - v.pos < fuel →
    (play_go clock fuel v period).isSome := by
  intro fuel
  induction fuel with
  | zero =>
    intro v period hp hs hf
    omega
  | succ fuel ih =>
    intro v period hp hs hf
    simp only [play_go]
    rcases hstep : play_step clock v period with ⟨r, evs⟩ | ⟨v', period', evs⟩ <;>
      simp only [play_after]
    · rfl
    · obtain ⟨h1, h2, h3⟩ := play_step_cont_pos clock v period v' period' evs hp hs hstep
      have h4 := ih v' period' (by omega) (by omega) (by omega)
      obtain ⟨rt, hrt⟩ := Option.isSome_iff_exists.mp h4
      rw [hrt]
      rfl

/-- The wait loop makes no progress at all under the parameters
derived from `n = 256, d = 1`: `err` and `remain` are both left
unchanged by every iteration. -/
theorem wait_go_stuck : ∀ (fuel err : Nat) (r : Int), 0 < r → err < 65536 →
    wait_go (set_delay_parameters 256 1) fuel err r = none := by
  intro fuel
  induction fuel with
  | zero =>
    intro err r hr he
    simp only [wait_go]
    rw [if_neg (by omega)]
  | succ fuel ih =>
    intro err r hr he
    simp only [wait_go]
    rw [if_neg (by omega)]
    have hb : wait_body (set_delay_parameters 256 1) (err, r) = (err, r) := by
      rw [wait_body_eq_zero 256 1 err r (by decide) he]
      have h1 : (256 / 1 % 256 : Nat) = 0 := by decide
      rw [h1]
      simp
    rw [hb, ih err r hr he]
    rfl

/-- Claim C10, counterexample: the override parameters `n = 256, d = 1`
are within `[1, 32767]`, yet `wait_44khz` on a single sample never
terminates (the runner exhausts any fuel). -/
theorem C10_counterexample :
    (1 ≤ 256 ∧ 256 ≤ 32767 ∧ 1 ≤ 1 ∧ (1 : Nat) ≤ 32767) ∧
    wait_44khz (set_delay_parameters 256 1) 1 = none := by
  refine ⟨by decide, ?_⟩
  unfold wait_44khz
  apply wait_go_stuck
  · decide
  · decide

/-- Claim C10, amended: the interpreter's dispatch loop terminates on
every cursor the program can build (each iteration either terminates
or strictly advances the offset, and fuel `size + 1 - pos` suffices);
and every `wait_44khz` call with parameters from
`set_delay_parameters n d`, `n, d ∈ [1, 32767]`, terminates provided
`step` and `adj_up` are not both zero — the excluded corner (`d`
divides `n` and `(n / d) % 256 = 0`, e.g. `n = 256, d = 1`) loops
forever because of the 8-bit truncation of `step`. -/
theorem C10_termination :
    (∀ (v : VgmBuf) (clock : Nat), v.pos ≤ v.size → v.size ≤ 65534 →
      (play v clock).isSome) ∧
    (∀ n d s, 1 ≤ n → n ≤ 32767 → 1 ≤ d → d ≤ 32767 → s ≤ 65535 →
      ¬(n % d = 0 ∧ n / d % 256 = 0) →
      (wait_44khz (set_delay_parameters n d) s).isSome) := by
  constructor
  · intro v clock hp hs
    exact play_go_isSome clock (v.size + 1 - v.pos) v 0 hp hs (by omega)
  · intro n d s h1 h2 h3 h4 h5 h6
    by_cases hsm : s ≤ 32767
    · rw [wait_44khz_eq_iters n d s h3 h4 hsm h6]
      rfl
    · rw [wait_44khz_big _ s (by omega) h5]
      rfl

theorem C10_termination_witness :
    ((⟨[0x70, 0x99], 2, 0⟩ : VgmBuf).pos ≤ (⟨[0x70, 0x99], 2, 0⟩ : VgmBuf).size ∧
      (⟨[0x70, 0x99], 2, 0⟩ : VgmBuf).size ≤ 65534) ∧
    (play ⟨[0x70, 0x99], 2, 0⟩ 0).isSome ∧
    (wait_44khz (set_delay_parameters 27000 23895) 512).isSome :=
  ⟨⟨by decide, by decide⟩,
   C10_termination.1 ⟨[0x70, 0x99], 2, 0⟩ 0 (by decide) (by decide),
   C10_termination.2 27000 23895 512 (by decide) (by decide) (by decide) (by decide)
     (by decide) (by decide)⟩

end VgmPlay
